import Mathlib

/-!
Verification of `src/irrevolutions/practice/discrete_atk_homogeneous.py`.

The file shallow-embeds, over exact rationals:

* the `_AlternateMinimisation.solve` staggered (alternating-minimisation)
  loop — iteration control, the four recorded error metrics, the
  `residual_u` / `alpha_H1` stopping criteria, and the for/else
  non-convergence raise;
* the `discrete_atk` load-stepping driver — the analytic
  `_critical_load` / `_homogeneous_state` helpers, the per-load-step
  bookkeeping appended to `history_data`, and the fixed damage bounds.

External collaborators (PETSc SNES sub-solvers, the `norm_H1` / `norm_L2`
utilities, finite-element assembly of the energy forms, and the two
stability oracles) are kept as abstract function parameters of the
environment records, exactly as the specification declares them out of
scope. Machine floats are modelled by `ℚ`; `np.sqrt`, the only
non-rational operation, is modelled by its characterising predicate
`IsCriticalLoad`.
-/

set_option maxHeartbeats 1000000

/-! ## Vectors and norms -/

/-- PETSc `Vec.max()[1]`: the (signed) maximum entry of a vector, as used at
`error_alpha_max = alpha_diff.x.petsc_vec.max()[1]`. -/
def vecMax : List ℚ → ℚ
  | [] => 0
  | x :: xs => xs.foldl max x

/-- The max-norm as the spec words it: "the maximum of the absolute values of
the components". Written from the spec's words (not from the source) for the
refinement comparison with `vecMax` in claim C8. -/
def spec_linfty_norm (xs : List ℚ) : ℚ :=
  vecMax (xs.map (fun x => |x|))

/-- The damage increment `alpha_diff`: `alpha.copy(alpha_diff)` followed by
`alpha_diff.axpy(-1, alpha_old)`, i.e. the componentwise difference
`alpha_new - alpha_old`. -/
def alpha_increment (alpha_new alpha_old : List ℚ) : List ℚ :=
  List.zipWith (fun a b => a - b) alpha_new alpha_old

/-! ## `_AlternateMinimisation` -/

/-- Environment of `_AlternateMinimisation.solve`: the recognised
`damage_elasticity` options (`max_it`, `criterion`, `alpha_rtol`) plus the
external collaborators, kept abstract as the spec directs: the two SNES
sub-solvers (each returning the updated field together with its iteration
count and termination reason), the `norm_H1` / `norm_L2` utilities applied to
the damage increment, and the assembled scalars (`Fnorm`, the residual norm
`error_residual_F`, and the total energy), each a function of the current
`(u, alpha)` state. -/
structure AMEnv where
  max_it : ℕ
  criterion : String
  alpha_rtol : ℚ
  elastic_step : List ℚ → List ℚ → List ℚ × ℕ × ℤ
  damage_step : List ℚ → List ℚ → List ℚ × ℕ × ℤ
  norm_H1 : List ℚ → ℚ
  norm_L2 : List ℚ → ℚ
  F_norm : List ℚ → List ℚ → ℚ
  residual_F : List ℚ → List ℚ → ℚ
  total_energy : List ℚ → List ℚ → ℚ

/-- The `self.data` dictionary of per-iteration diagnostic lists, one field
per key, in the source's order (lines 98–110). -/
structure AMData where
  iteration : List ℕ
  error_alpha_L2 : List ℚ
  error_alpha_H1 : List ℚ
  F_norm : List ℚ
  error_alpha_max : List ℚ
  error_residual_F : List ℚ
  solver_alpha_reason : List ℤ
  solver_alpha_it : List ℕ
  solver_u_reason : List ℤ
  solver_u_it : List ℕ
  total_energy : List ℚ
deriving DecidableEq

/-- The empty `self.data` dictionary initialised at the top of `solve`. -/
def emptyAMData : AMData :=
  { iteration := [], error_alpha_L2 := [], error_alpha_H1 := [], F_norm := [],
    error_alpha_max := [], error_residual_F := [], solver_alpha_reason := [],
    solver_alpha_it := [], solver_u_reason := [], solver_u_it := [],
    total_energy := [] }

/-- All eleven diagnostic lists of an `AMData` have length `n`. -/
def AMData.allLen (d : AMData) (n : ℕ) : Prop :=
  d.iteration.length = n ∧ d.error_alpha_L2.length = n ∧
  d.error_alpha_H1.length = n ∧ d.F_norm.length = n ∧
  d.error_alpha_max.length = n ∧ d.error_residual_F.length = n ∧
  d.solver_alpha_reason.length = n ∧ d.solver_alpha_it.length = n ∧
  d.solver_u_reason.length = n ∧ d.solver_u_it.length = n ∧
  d.total_energy.length = n

/-- One iteration of the alternating loop body (source lines 114–177 up to
the appends): elastic solve, damage solve, increment and the recorded
scalars. -/
structure AMIterOut where
  u : List ℚ
  alpha : List ℚ
  error_alpha_L2 : ℚ
  error_alpha_H1 : ℚ
  F_norm : ℚ
  error_alpha_max : ℚ
  error_residual_F : ℚ
  solver_alpha_it : ℕ
  solver_alpha_reason : ℤ
  solver_u_it : ℕ
  solver_u_reason : ℤ
  total_energy : ℚ
deriving DecidableEq

/-- The loop body of `solve`: `self.elasticity.solve()` (mutating `u`), then
`self.damage.solve()` (mutating `alpha`), then the damage increment
`alpha_diff = alpha - alpha_old` and the recorded metrics, including
`error_alpha_max = alpha_diff.x.petsc_vec.max()[1]` (the signed maximum
entry). -/
def amIterate (env : AMEnv) (u alpha alpha_old : List ℚ) : AMIterOut :=
  let eu := env.elastic_step u alpha
  let da := env.damage_step eu.1 alpha
  let alpha_diff := alpha_increment da.1 alpha_old
  { u := eu.1
    alpha := da.1
    error_alpha_L2 := env.norm_L2 alpha_diff
    error_alpha_H1 := env.norm_H1 alpha_diff
    F_norm := env.F_norm eu.1 da.1
    error_alpha_max := vecMax alpha_diff
    error_residual_F := env.residual_F eu.1 da.1
    solver_alpha_it := da.2.1
    solver_alpha_reason := da.2.2
    solver_u_it := eu.2.1
    solver_u_reason := eu.2.2
    total_energy := env.total_energy eu.1 da.1 }

/-- The eleven `self.data[...].append(...)` statements (source lines
167–177). -/
def appendData (d : AMData) (k : ℕ) (o : AMIterOut) : AMData :=
  { iteration := d.iteration ++ [k]
    error_alpha_L2 := d.error_alpha_L2 ++ [o.error_alpha_L2]
    error_alpha_H1 := d.error_alpha_H1 ++ [o.error_alpha_H1]
    F_norm := d.F_norm ++ [o.F_norm]
    error_alpha_max := d.error_alpha_max ++ [o.error_alpha_max]
    error_residual_F := d.error_residual_F ++ [o.error_residual_F]
    solver_alpha_reason := d.solver_alpha_reason ++ [o.solver_alpha_reason]
    solver_alpha_it := d.solver_alpha_it ++ [o.solver_alpha_it]
    solver_u_reason := d.solver_u_reason ++ [o.solver_u_reason]
    solver_u_it := d.solver_u_it ++ [o.solver_u_it]
    total_energy := d.total_energy ++ [o.total_energy] }

/-- The two sequential `if criterion == ... and error <= alpha_rtol: break`
tests (source lines 179–194). -/
def stopCriterion (env : AMEnv) (o : AMIterOut) : Bool :=
  if env.criterion = "residual_u" ∧ o.error_residual_F ≤ env.alpha_rtol then
    true
  else if env.criterion = "alpha_H1" ∧ o.error_alpha_H1 ≤ env.alpha_rtol then
    true
  else false

/-- Outcome of `solve`: the loop either breaks (normal return, with the final
state and diagnostics), or exhausts `range(max_it)` and raises carrying the
last `error_alpha_H1` and the final value of the loop variable `iteration`
(the source raises `RuntimeError`, the spec's `NonConvergenceFailure`).
With `max_it = 0` the `else:` clause reads the unbound loop variable, a
`NameError`. -/
inductive AMResult where
  | converged (u alpha : List ℚ) (data : AMData)
  | nonConvergence (error_alpha_H1 : ℚ) (iteration : ℕ) (data : AMData)
  | nameError
deriving DecidableEq

/-- The `for iteration in range(max_it): ... else: raise` loop, recursing on
the number of remaining iterations; `k` is the current value of `iteration`.
When the last remaining iteration leaves the criterion unsatisfied the loop
reaches the `else:` clause, raising with the current locals. -/
def solveLoop (env : AMEnv) :
    ℕ → ℕ → List ℚ → List ℚ → List ℚ → AMData → AMResult
  | _, 0, _, _, _, _ => AMResult.nameError
  | k, r + 1, u, alpha, alpha_old, d =>
      let o := amIterate env u alpha alpha_old
      let d' := appendData d k o
      if stopCriterion env o then AMResult.converged o.u o.alpha d'
      else if r = 0 then AMResult.nonConvergence o.error_alpha_H1 k d'
      else solveLoop env (k + 1) r o.u o.alpha o.alpha d'

/-- `_AlternateMinimisation.solve`: `alpha_old` starts as the zero function
on the damage space (`Function(self.alpha.function_space)`), `self.data`
starts empty, and the loop runs over `range(max_it)`. -/
def _AlternateMinimisation.solve (env : AMEnv) (u alpha : List ℚ) : AMResult :=
  solveLoop env 0 env.max_it u alpha (alpha.map (fun _ => 0)) emptyAMData

/-! ## `discrete_atk`: material parameters and the analytic homogeneous state -/

/-- The material-parameter block `parameters["model"]`: `mu`, `k`, `w1` and
the chain size `N`. -/
structure MatPar where
  mu : ℚ
  k : ℚ
  w1 : ℚ
  N : ℕ
deriving DecidableEq

/-- The argument of `np.sqrt` in `_critical_load`:
`8 * _w1 / (_mu * _k) / 4`. -/
def _critical_load_sq (mp : MatPar) : ℚ :=
  8 * mp.w1 / (mp.mu * mp.k) / 4

/-- Characterisation of `_critical_load(matpar) = np.sqrt(8*_w1/(_mu*_k)/4)`:
`np.sqrt` is not a rational operation, so the returned value `c` is
characterised as the nonnegative square root of `_critical_load_sq`. For the
driver's parameters (`mu=1`, `k=4`, `w1=2`) the argument is exactly `1`, so
the critical load is exactly `1`. -/
def IsCriticalLoad (mp : MatPar) (c : ℚ) : Prop :=
  0 ≤ c ∧ c * c = _critical_load_sq mp

instance (mp : MatPar) (c : ℚ) : Decidable (IsCriticalLoad mp c) := by
  unfold IsCriticalLoad; infer_instance

/-- The homogeneous state prescribed by `_homogeneous_state`: the damage
cell values (`_alphah`, `N` entries) and the nodal displacements (`_uh`,
`N + 1` entries). -/
structure HomState where
  alphah : List ℚ
  uh : List ℚ
deriving DecidableEq

/-- The `t <= _tc` branch of `_homogeneous_state`:
`_alphah = [0.0 for i in range(0, _N)]` and
`_uh = [i * t / _N for i in range(0, _N + 1)]`. -/
def elasticBranch (mp : MatPar) (t : ℚ) : HomState :=
  { alphah := (List.range mp.N).map (fun _ => (0 : ℚ))
    uh := (List.range (mp.N + 1)).map (fun i : ℕ => (i : ℚ) * t / (mp.N : ℚ)) }

/-- The `t > _tc` branch of `_homogeneous_state`:
`_α = (t / _tc - 1) / (_k - 1)`, `_alphah = [_α for i in range(0, _N)]`,
`_e = t / _N`, `_uh = [_e * i for i in range(0, _N + 1)]`. -/
def damagingBranch (mp : MatPar) (tc t : ℚ) : HomState :=
  { alphah := (List.range mp.N).map (fun _ => (t / tc - 1) / (mp.k - 1))
    uh := (List.range (mp.N + 1)).map (fun i : ℕ => t / (mp.N : ℚ) * (i : ℚ)) }

/-- `_homogeneous_state(state, t, matpar)`: the elastic branch if
`t <= _tc`, the damaging branch otherwise, writing the two lists into the
state fields. Since `np.sqrt` is irrational in general, the critical load
`tc` (characterised by `IsCriticalLoad`) is passed explicitly; the driver
instantiates it with the exact value `1`. -/
def _homogeneous_state (mp : MatPar) (tc t : ℚ) : HomState :=
  if t ≤ tc then elasticBranch mp t else damagingBranch mp tc t

/-! ## `discrete_atk`: the load-stepping driver -/

/-- Environment of `discrete_atk`: the chain size `arg_N`, the loading
minimum (read from `parameters.yml`, which is not part of the excerpt), and
the external collaborators as abstract functions: finite-element assembly of
the fracture/elastic energies and the stress (each a function of the
current `(u, alpha)` state), the `BifurcationSolver` and `StabilitySolver`
oracles (indexed by the load-step counter `i_t`, since their internals are
out of scope), and the `_AlternateMinimisation` instance constructed — and
never used — at source line 419. -/
structure DriverEnv where
  N : ℕ
  loading_min : ℚ
  fracture_energy : List ℚ → List ℚ → ℚ
  elastic_energy : List ℚ → List ℚ → ℚ
  stress : List ℚ → List ℚ → ℚ
  stab_solve : ℕ → Bool
  stab_is_elastic : ℕ → Bool
  stab_inertia : ℕ → ℤ × ℤ × ℤ
  stab_eigs : ℕ → List ℚ
  stab_data_stable : ℕ → Bool
  cone_solve : ℕ → Bool
  cone_data : ℕ → ℤ
  am : AMEnv

/-- `parameters["model"]` as fixed by `discrete_atk` (lines 214–220):
`mu = 1`, `k = 4`, `w1 = 2`, `N = arg_N`. -/
def atkMatPar (n : ℕ) : MatPar :=
  { mu := 1, k := 4, w1 := 2, N := n }

/-- `parameters["loading"]["max"] = parameters["model"]["k"] = 4`. -/
def loading_max : ℚ := 4

/-- `parameters["loading"]["steps"] = 30`. -/
def loading_steps : ℕ := 30

/-- `np.linspace(lo, hi, n)`: `n` evenly spaced samples with both endpoints
included. -/
def linspace (lo hi : ℚ) (n : ℕ) : List ℚ :=
  (List.range n).map (fun i : ℕ => lo + (hi - lo) * (i : ℚ) / ((n : ℚ) - 1))

/-- The load sequence `loads = np.linspace(load_par["min"],
load_par["max"], load_par["steps"])`. -/
def loads (env : DriverEnv) : List ℚ :=
  linspace env.loading_min loading_max loading_steps

/-- The `history_data` dictionary (source lines 431–443), one field per key.
Payloads produced by the external oracles keep the oracle output types. -/
structure HistoryData where
  load : List ℚ
  elastic_energy : List ℚ
  fracture_energy : List ℚ
  total_energy : List ℚ
  cone_data : List ℤ
  eigs : List (List ℚ)
  cone_stable : List Bool
  non_bifurcation : List Bool
  F : List ℚ
  alpha_t : List (List ℚ)
  u_t : List (List ℚ)
deriving DecidableEq

/-- The mutable state of the driver run: the fields, the fixed bounds, the
history dictionary and the `check_stability` list. -/
structure DriverState where
  u : List ℚ
  alpha : List ℚ
  alpha_lb : List ℚ
  alpha_ub : List ℚ
  history : HistoryData
  check_stability : List Bool
deriving DecidableEq

/-- Initial driver state: `u`, `alpha` and `alpha_lb` interpolate the zero
function over their dofs (`alpha_lb.interpolate(np.zeros_like)`, line 322),
`alpha_ub` interpolates one (line 323), and every history list starts
empty. -/
def initState (env : DriverEnv) : DriverState :=
  { u := (List.range (env.N + 1)).map (fun _ => (0 : ℚ))
    alpha := (List.range env.N).map (fun _ => (0 : ℚ))
    alpha_lb := (List.range env.N).map (fun _ => (0 : ℚ))
    alpha_ub := (List.range env.N).map (fun _ => (1 : ℚ))
    history := { load := [], elastic_energy := [], fracture_energy := [],
                 total_energy := [], cone_data := [], eigs := [],
                 cone_stable := [], non_bifurcation := [], F := [],
                 alpha_t := [], u_t := [] }
    check_stability := [] }

/-- The state prescribed at load `t`: `_homogeneous_state(state, t,
parameters["model"])` with the driver's material parameters, whose critical
load is exactly `1` (theorem `atk_critical_load_one` below). -/
def stepState (env : DriverEnv) (t : ℚ) : HomState :=
  _homogeneous_state (atkMatPar env.N) 1 t

/-- `elastic_energy` assembled at the state of load step `t` (line 514). -/
def stepElastic (env : DriverEnv) (t : ℚ) : ℚ :=
  env.elastic_energy (stepState env t).uh (stepState env t).alphah

/-- `fracture_energy` assembled at the state of load step `t` (line 510). -/
def stepFracture (env : DriverEnv) (t : ℚ) : ℚ :=
  env.fracture_energy (stepState env t).uh (stepState env t).alphah

/-- `_F = assemble_scalar(form(stress(state)))` at load step `t`
(line 518). -/
def stepStress (env : DriverEnv) (t : ℚ) : ℚ :=
  env.stress (stepState env t).uh (stepState env t).alphah

/-- One pass of the `for i_t, t in enumerate(loads)` body: set the
homogeneous state, query the two stability oracles, assemble the energies
and the stress, and append one entry to every history list; the bounds
`alpha_lb`, `alpha_ub` are read (by the oracles) but never written. -/
def loadStep (env : DriverEnv) (i_t : ℕ) (t : ℚ) (s : DriverState) :
    DriverState :=
  let hs := stepState env t
  let fracture := env.fracture_energy hs.uh hs.alphah
  let elastic := env.elastic_energy hs.uh hs.alphah
  { u := hs.uh
    alpha := hs.alphah
    alpha_lb := s.alpha_lb
    alpha_ub := s.alpha_ub
    check_stability := s.check_stability ++ [env.stab_solve i_t]
    history :=
      { load := s.history.load ++ [t]
        fracture_energy := s.history.fracture_energy ++ [fracture]
        elastic_energy := s.history.elastic_energy ++ [elastic]
        total_energy := s.history.total_energy ++ [elastic + fracture]
        cone_data := s.history.cone_data ++ [env.cone_data i_t]
        eigs := s.history.eigs ++ [env.stab_eigs i_t]
        non_bifurcation := s.history.non_bifurcation ++
          [!env.stab_data_stable i_t]
        cone_stable := s.history.cone_stable ++ [env.cone_solve i_t]
        F := s.history.F ++ [env.stress hs.uh hs.alphah]
        alpha_t := s.history.alpha_t ++ [hs.alphah]
        u_t := s.history.u_t ++ [hs.uh] } }

/-- The enumerated load loop: `i_t` is the running index of `enumerate`. -/
def runLoads (env : DriverEnv) (i_t : ℕ) (ts : List ℚ) (s : DriverState) :
    DriverState :=
  match ts with
  | [] => s
  | t :: rest => runLoads env (i_t + 1) rest (loadStep env i_t t s)

/-- `discrete_atk`: run the load loop over `loads` from the initial state. -/
def discrete_atk (env : DriverEnv) : DriverState :=
  runLoads env 0 (loads env) (initState env)

/-! ## Concrete instantiations used by witnesses and counterexamples -/

/-- A trivial concrete solver environment: both sub-solvers are identities
and every assembled scalar is zero, so the `residual_u` criterion is met at
the first iteration. -/
def trivAMEnv : AMEnv :=
  { max_it := 1, criterion := "residual_u", alpha_rtol := 0,
    elastic_step := fun u _ => (u, 0, 0),
    damage_step := fun _ a => (a, 0, 0),
    norm_H1 := fun _ => 0, norm_L2 := fun _ => 0,
    F_norm := fun _ _ => 0, residual_F := fun _ _ => 0,
    total_energy := fun _ _ => 0 }

/-- A solver environment converging at once under `residual_u` while the
three other metrics all evaluate to `B + 1`. -/
def unboundedEnvR (B : ℚ) : AMEnv :=
  { max_it := 1, criterion := "residual_u", alpha_rtol := 0,
    elastic_step := fun u _ => (u, 0, 0),
    damage_step := fun _ _ => ([B + 1], 0, 0),
    norm_H1 := fun _ => B + 1, norm_L2 := fun _ => B + 1,
    F_norm := fun _ _ => 0, residual_F := fun _ _ => 0,
    total_energy := fun _ _ => 0 }

/-- A solver environment converging at once under `alpha_H1` while the
three other metrics all evaluate to `B + 1`. -/
def unboundedEnvH (B : ℚ) : AMEnv :=
  { max_it := 1, criterion := "alpha_H1", alpha_rtol := 0,
    elastic_step := fun u _ => (u, 0, 0),
    damage_step := fun _ _ => ([B + 1], 0, 0),
    norm_H1 := fun _ => 0, norm_L2 := fun _ => B + 1,
    F_norm := fun _ _ => 0, residual_F := fun _ _ => B + 1,
    total_energy := fun _ _ => 0 }

/-- A solver environment whose `residual_u` criterion is never satisfied
(`error_residual_F = 1 > 0 = alpha_rtol`) with `max_it = 2`. -/
def env2 : AMEnv :=
  { max_it := 2, criterion := "residual_u", alpha_rtol := 0,
    elastic_step := fun u _ => (u, 0, 0),
    damage_step := fun _ a => (a, 0, 0),
    norm_H1 := fun _ => 5, norm_L2 := fun _ => 0,
    F_norm := fun _ _ => 0, residual_F := fun _ _ => 1,
    total_energy := fun _ _ => 0 }

/-- The diagnostic lists accumulated by `solve` under `env2`: two recorded
iterations of the identical loop body. -/
def d2val : AMData :=
  appendData (appendData emptyAMData 0 (amIterate env2 [0] [0] [0])) 1
    (amIterate env2 [0] [0] [0])

/-- A solver environment whose damage solve returns a decreased damage field
(`alpha` drops from `0` to `-2`), converging at once under `residual_u`. -/
def env8 : AMEnv :=
  { max_it := 1, criterion := "residual_u", alpha_rtol := 0,
    elastic_step := fun u _ => (u, 0, 0),
    damage_step := fun _ _ => ([-2], 0, 0),
    norm_H1 := fun _ => 0, norm_L2 := fun _ => 0,
    F_norm := fun _ _ => 0, residual_F := fun _ _ => 0,
    total_energy := fun _ _ => 0 }

/-- The diagnostic lists accumulated by `solve` under `env8`: one recorded
iteration with a negative `error_alpha_max`. -/
def d8val : AMData :=
  appendData emptyAMData 0 (amIterate env8 [0] [0] [0])

/-- A concrete driver environment: two springs, loading minimum `0`, all
assembled scalars zero, trivial oracles. -/
def envD : DriverEnv :=
  { N := 2, loading_min := 0,
    fracture_energy := fun _ _ => 0, elastic_energy := fun _ _ => 0,
    stress := fun _ _ => 0,
    stab_solve := fun _ => true, stab_is_elastic := fun _ => true,
    stab_inertia := fun _ => (0, 0, 0), stab_eigs := fun _ => [],
    stab_data_stable := fun _ => true, cone_solve := fun _ => true,
    cone_data := fun _ => 0, am := trivAMEnv }

/-! ## Lemmas about the alternating-minimisation loop -/

theorem emptyAMData_allLen : emptyAMData.allLen 0 := by
  simp [AMData.allLen, emptyAMData]

theorem appendData_allLen {d : AMData} {n : ℕ} (h : d.allLen n) (k : ℕ)
    (o : AMIterOut) : (appendData d k o).allLen (n + 1) := by
  obtain ⟨h1, h2, h3, h4, h5, h6, h7, h8, h9, h10, h11⟩ := h
  simp [AMData.allLen, appendData, h1, h2, h3, h4, h5, h6, h7, h8, h9, h10,
    h11]

theorem appendData_H1_getLast (d : AMData) (k : ℕ) (o : AMIterOut) :
    (appendData d k o).error_alpha_H1.getLast? = some o.error_alpha_H1 := by
  simp [appendData]

theorem appendData_residual_getLast (d : AMData) (k : ℕ) (o : AMIterOut) :
    (appendData d k o).error_residual_F.getLast? =
      some o.error_residual_F := by
  simp [appendData]

theorem stop_residual {env : AMEnv} {o : AMIterOut}
    (hc : env.criterion = "residual_u") (hs : stopCriterion env o = true) :
    o.error_residual_F ≤ env.alpha_rtol := by
  unfold stopCriterion at hs
  split at hs
  · next h => exact h.2
  · split at hs
    · next h =>
      rw [hc] at h
      exact absurd h.1 (by decide)
    · simp at hs

theorem stop_H1 {env : AMEnv} {o : AMIterOut}
    (hc : env.criterion = "alpha_H1") (hs : stopCriterion env o = true) :
    o.error_alpha_H1 ≤ env.alpha_rtol := by
  unfold stopCriterion at hs
  split at hs
  · next h =>
    rw [hc] at h
    exact absurd h.1 (by decide)
  · split at hs
    · next h => exact h.2
    · simp at hs

/-- A successful return of the loop comes from a break: the final data is
the previous data with one more record, whose metrics satisfied the
stopping test. -/
theorem solveLoop_converged (env : AMEnv) :
    ∀ r k u a ao d u' a' d',
      solveLoop env k r u a ao d = AMResult.converged u' a' d' →
      ∃ k0 u0 a0 ao0 d0,
        stopCriterion env (amIterate env u0 a0 ao0) = true ∧
        d' = appendData d0 k0 (amIterate env u0 a0 ao0) := by
  intro r
  induction r with
  | zero =>
    intro k u a ao d u' a' d' h
    exact AMResult.noConfusion h
  | succ r ih =>
    intro k u a ao d u' a' d' h
    simp only [solveLoop] at h
    split at h
    · next hs =>
      refine ⟨k, u, a, ao, d, hs, ?_⟩
      cases h
      rfl
    · split at h
      · exact AMResult.noConfusion h
      · exact ih (k + 1) _ _ _ _ u' a' d' h

/-- Characterisation of the raise: with `r + 1` iterations remaining and the
loop variable at `k`, a raised `nonConvergence` carries the zero-based index
`k + r` of the last iteration, its `error_alpha_H1` is the last recorded
one, and every diagnostic list has grown by `r + 1` records. -/
theorem solveLoop_nonConv (env : AMEnv) :
    ∀ r k u a ao d e it d',
      solveLoop env k (r + 1) u a ao d = AMResult.nonConvergence e it d' →
      it = k + r ∧ d'.error_alpha_H1.getLast? = some e ∧
        ∀ n, d.allLen n → d'.allLen (n + r + 1) := by
  intro r
  induction r with
  | zero =>
    intro k u a ao d e it d' h
    simp only [solveLoop] at h
    split at h
    · exact AMResult.noConfusion h
    · rw [if_pos trivial] at h
      cases h
      exact ⟨rfl, appendData_H1_getLast d k _, fun n hn =>
        appendData_allLen hn k _⟩
  | succ r ih =>
    intro k u a ao d e it d' h
    simp only [solveLoop] at h
    split at h
    · exact AMResult.noConfusion h
    · rw [if_neg (Nat.succ_ne_zero r)] at h
      obtain ⟨h1, h2, h3⟩ := ih (k + 1) _ _ _ _ e it d' h
      refine ⟨by omega, h2, fun n hn => ?_⟩
      have h4 := h3 (n + 1) (appendData_allLen hn k _)
      have h5 : n + 1 + r + 1 = n + (r + 1) + 1 := by omega
      rwa [h5] at h4

/-- The loop with at least one remaining iteration either breaks or
raises; it never reaches the unbound-variable case. -/
theorem solveLoop_cases (env : AMEnv) :
    ∀ r k u a ao d,
      (∃ u' a' d', solveLoop env k (r + 1) u a ao d =
        AMResult.converged u' a' d') ∨
      (∃ e it d', solveLoop env k (r + 1) u a ao d =
        AMResult.nonConvergence e it d') := by
  intro r
  induction r with
  | zero =>
    intro k u a ao d
    simp only [solveLoop]
    split
    · exact Or.inl ⟨_, _, _, rfl⟩
    · rw [if_pos trivial]
      exact Or.inr ⟨_, _, _, rfl⟩
  | succ r ih =>
    intro k u a ao d
    simp only [solveLoop]
    split
    · exact Or.inl ⟨_, _, _, rfl⟩
    · rw [if_neg (Nat.succ_ne_zero r)]
      exact ih (k + 1) _ _ _ _

/-! ## Claims C1, C2, C8: the alternating-minimisation loop -/

/-- C1: for every configuration with criterion `residual_u` or `alpha_H1`,
if `_AlternateMinimisation.solve` returns without raising then the last
recorded value of the selected metric (`error_residual_F` for `residual_u`,
`error_alpha_H1` for `alpha_H1`) is at most the configured tolerance
`damage_elasticity.alpha_rtol`; and no bound is asserted on the other three
recorded metrics: for every bound `B` there are successful runs whose other
three metrics all end above `B`. -/
theorem C1_stopping_criterion :
    (∀ (env : AMEnv) (u a u' a' : List ℚ) (d : AMData),
        env.criterion = "residual_u" →
        _AlternateMinimisation.solve env u a = AMResult.converged u' a' d →
        ∀ v, d.error_residual_F.getLast? = some v → v ≤ env.alpha_rtol) ∧
    (∀ (env : AMEnv) (u a u' a' : List ℚ) (d : AMData),
        env.criterion = "alpha_H1" →
        _AlternateMinimisation.solve env u a = AMResult.converged u' a' d →
        ∀ v, d.error_alpha_H1.getLast? = some v → v ≤ env.alpha_rtol) ∧
    (∀ B : ℚ, ∃ (env : AMEnv) (u a u' a' : List ℚ) (d : AMData),
        env.criterion = "residual_u" ∧
        _AlternateMinimisation.solve env u a = AMResult.converged u' a' d ∧
        (∃ v, d.error_alpha_L2.getLast? = some v ∧ B < v) ∧
        (∃ v, d.error_alpha_H1.getLast? = some v ∧ B < v) ∧
        (∃ v, d.error_alpha_max.getLast? = some v ∧ B < v)) ∧
    (∀ B : ℚ, ∃ (env : AMEnv) (u a u' a' : List ℚ) (d : AMData),
        env.criterion = "alpha_H1" ∧
        _AlternateMinimisation.solve env u a = AMResult.converged u' a' d ∧
        (∃ v, d.error_alpha_L2.getLast? = some v ∧ B < v) ∧
        (∃ v, d.error_residual_F.getLast? = some v ∧ B < v) ∧
        (∃ v, d.error_alpha_max.getLast? = some v ∧ B < v)) := by
  refine ⟨?_, ?_, ?_, ?_⟩
  · intro env u a u' a' d hc hsolve v hv
    obtain ⟨k0, u0, a0, ao0, d0, hs, hd⟩ :=
      solveLoop_converged env env.max_it 0 u a (a.map (fun _ => 0))
        emptyAMData u' a' d hsolve
    rw [hd, appendData_residual_getLast] at hv
    cases hv
    exact stop_residual hc hs
  · intro env u a u' a' d hc hsolve v hv
    obtain ⟨k0, u0, a0, ao0, d0, hs, hd⟩ :=
      solveLoop_converged env env.max_it 0 u a (a.map (fun _ => 0))
        emptyAMData u' a' d hsolve
    rw [hd, appendData_H1_getLast] at hv
    cases hv
    exact stop_H1 hc hs
  · intro B
    exact ⟨unboundedEnvR B, [0], [0], [0], [B + 1],
      appendData emptyAMData 0 (amIterate (unboundedEnvR B) [0] [0] [0]),
      rfl, rfl,
      ⟨B + 1, rfl, by norm_num⟩, ⟨B + 1, rfl, by norm_num⟩,
      ⟨B + 1 - 0, rfl, by norm_num⟩⟩
  · intro B
    exact ⟨unboundedEnvH B, [0], [0], [0], [B + 1],
      appendData emptyAMData 0 (amIterate (unboundedEnvH B) [0] [0] [0]),
      rfl, rfl,
      ⟨B + 1, rfl, by norm_num⟩, ⟨B + 1, rfl, by norm_num⟩,
      ⟨B + 1 - 0, rfl, by norm_num⟩⟩

/-- Witness for C1 at a concrete converging configuration. -/
theorem C1_stopping_criterion_witness : (0 : ℚ) ≤ trivAMEnv.alpha_rtol :=
  C1_stopping_criterion.1 trivAMEnv [0] [0] [0] [0]
    (appendData emptyAMData 0 (amIterate trivAMEnv [0] [0] [0])) rfl rfl
    0 rfl

/-- C2 (amended): with `max_it >= 1`, `_AlternateMinimisation.solve` either
breaks (converges) or raises a non-convergence failure; the raise carries
the last recorded `error_alpha_H1` and the zero-based index of the last
iteration, `max_it - 1` (not the iteration count `max_it`), and at the
moment of the raise each of the eleven per-iteration diagnostic lists
contains exactly `max_it` entries. -/
theorem C2_iteration_cap_fatality (env : AMEnv) (u a : List ℚ)
    (h1 : 1 ≤ env.max_it) :
    (∀ e it d,
        _AlternateMinimisation.solve env u a =
          AMResult.nonConvergence e it d →
        it = env.max_it - 1 ∧ d.error_alpha_H1.getLast? = some e ∧
          d.allLen env.max_it) ∧
    ((∃ u' a' d, _AlternateMinimisation.solve env u a =
        AMResult.converged u' a' d) ∨
     (∃ e it d, _AlternateMinimisation.solve env u a =
        AMResult.nonConvergence e it d)) := by
  obtain ⟨r, hr⟩ : ∃ r, env.max_it = r + 1 := ⟨env.max_it - 1, by omega⟩
  constructor
  · intro e it d h
    rw [_AlternateMinimisation.solve, hr] at h
    obtain ⟨ha, hb, hc⟩ :=
      solveLoop_nonConv env r 0 u a (a.map (fun _ => 0)) emptyAMData e it d h
    have hd := hc 0 emptyAMData_allLen
    refine ⟨by omega, hb, ?_⟩
    have he : 0 + r + 1 = env.max_it := by omega
    rwa [he] at hd
  · rw [_AlternateMinimisation.solve, hr]
    exact solveLoop_cases env r 0 u a (a.map (fun _ => 0)) emptyAMData

/-- Witness for C2 at a concrete never-converging configuration with
`max_it = 2`: the raise carries index `1 = max_it - 1` and two records. -/
theorem C2_iteration_cap_fatality_witness :
    1 = env2.max_it - 1 ∧ d2val.error_alpha_H1.getLast? = some 5 ∧
      d2val.allLen env2.max_it :=
  (C2_iteration_cap_fatality env2 [0] [0] (by decide)).1 5 1 d2val rfl

/-- C2 counterexample to the claim as stated: under `env2` the criterion is
never satisfied and `max_it = 2` iterations run, but the raised failure
carries the value `1` of the loop variable — the zero-based index of the
last iteration — not the iteration count `2 = max_it`. -/
theorem C2_iteration_cap_fatality_counterexample :
    _AlternateMinimisation.solve env2 [0] [0] =
      AMResult.nonConvergence 5 1 d2val ∧
    env2.max_it = 2 ∧ (1 : ℕ) ≠ env2.max_it :=
  ⟨rfl, rfl, by decide⟩

/-- C8 (amended): the value recorded as `error_alpha_max` is the signed
maximum component of the damage increment (PETSc `Vec.max`), not the
max-norm; the two agree whenever every component of the increment is
nonnegative. -/
theorem C8_error_alpha_max_semantics :
    (∀ (env : AMEnv) (u a ao : List ℚ),
        (amIterate env u a ao).error_alpha_max =
          vecMax (alpha_increment (amIterate env u a ao).alpha ao)) ∧
    (∀ xs : List ℚ, xs ≠ [] → (∀ x ∈ xs, 0 ≤ x) →
        vecMax xs = spec_linfty_norm xs) := by
  constructor
  · intro env u a ao
    rfl
  · intro xs hne h0
    match xs with
    | [] => exact absurd rfl hne
    | x :: xs =>
      have hx : |x| = x := abs_of_nonneg (h0 x (by simp))
      have hxs : xs.map (fun y => |y|) = xs := by
        have h1 : ∀ y ∈ xs, |y| = id y :=
          fun y hy => abs_of_nonneg (h0 y (List.mem_cons_of_mem x hy))
        exact (List.map_congr_left h1).trans (List.map_id xs)
      simp only [spec_linfty_norm, List.map_cons, hx, hxs]

/-- Witness for C8 on a concrete nonnegative increment. -/
theorem C8_error_alpha_max_semantics_witness :
    vecMax [1, 2] = spec_linfty_norm [1, 2] :=
  C8_error_alpha_max_semantics.2 [1, 2] (by simp) (by decide)

/-- C8 counterexample to the claim as stated: under `env8` the damage field
decreases from `0` to `-2`, the recorded `error_alpha_max` is the signed
maximum `-2`, while the max-norm of the increment is `2`. -/
theorem C8_error_alpha_max_semantics_counterexample :
    _AlternateMinimisation.solve env8 [0] [0] =
      AMResult.converged [0] [-2] d8val ∧
    d8val.error_alpha_max = [(-2 : ℚ)] ∧
    spec_linfty_norm (alpha_increment [-2] [0]) = 2 ∧
    ((-2 : ℚ) ≠ 2) := by
  refine ⟨rfl, ?_, ?_, by norm_num⟩
  · simp [d8val, appendData, emptyAMData, amIterate, alpha_increment, vecMax,
      env8]
  · simp [spec_linfty_norm, alpha_increment, vecMax]

/-! ## Claims C3 and C10: the analytic critical load and homogeneous state -/

/-- For the driver's material parameters the critical load is exactly `1`,
for every chain size. -/
theorem atk_critical_load_one (n : ℕ) : IsCriticalLoad (atkMatPar n) 1 := by
  norm_num [IsCriticalLoad, _critical_load_sq, atkMatPar]

/-- C3: with `N=2`, `k=4`, `w1=2`, `mu=1` the critical load is exactly `1`
(`np.sqrt(8*2/(1*4)/4) = sqrt(1)`, the unique nonnegative square root);
`_homogeneous_state` at `t = 0.5` gives damage `[0, 0]` and displacements
`[0, 0.25, 0.5]`, and at `t = 2.0` gives damage `[1/3, 1/3]` and
displacements `[0, 1, 2]`. -/
theorem C3_closed_form_cross_check :
    IsCriticalLoad (atkMatPar 2) 1 ∧
    (∀ x : ℚ, IsCriticalLoad (atkMatPar 2) x → x = 1) ∧
    _homogeneous_state (atkMatPar 2) 1 (1 / 2) =
      { alphah := [0, 0], uh := [0, 1 / 4, 1 / 2] } ∧
    _homogeneous_state (atkMatPar 2) 1 2 =
      { alphah := [1 / 3, 1 / 3], uh := [0, 1, 2] } := by
  have hr2 : List.range 2 = [0, 1] := rfl
  have hr3 : List.range 3 = [0, 1, 2] := rfl
  refine ⟨atk_critical_load_one 2, ?_, ?_, ?_⟩
  · intro x hx
    obtain ⟨hx0, hx2⟩ := hx
    have hsq : x * x = 1 := by
      rw [hx2]
      norm_num [_critical_load_sq, atkMatPar]
    have hfac : (x - 1) * (x + 1) = 0 := by linear_combination hsq
    rcases mul_eq_zero.mp hfac with h | h
    · linarith
    · linarith
  · rw [_homogeneous_state, if_pos (by norm_num)]
    unfold elasticBranch
    simp only [HomState.mk.injEq, atkMatPar, hr2, hr3, List.map_cons,
      List.map_nil]
    norm_num
  · rw [_homogeneous_state, if_neg (by norm_num)]
    unfold damagingBranch
    simp only [HomState.mk.injEq, atkMatPar, hr2, hr3, List.map_cons,
      List.map_nil]
    norm_num

/-- Witness for C3: the uniqueness clause applied at the critical load
itself. -/
theorem C3_closed_form_cross_check_witness :
    IsCriticalLoad (atkMatPar 2) 1 ∧ (1 : ℚ) = 1 :=
  ⟨C3_closed_form_cross_check.1,
   C3_closed_form_cross_check.2.1 1 C3_closed_form_cross_check.1⟩

/-- C10: at a load exactly equal to the critical load the branch condition
`t <= _tc` takes the elastic branch, and the damaging-branch formulas
evaluated at `t = _tc` produce exactly the elastic values
(`(t/_tc - 1)/(k - 1) = 0` and the same displacements), so the prescribed
state is continuous at the threshold. -/
theorem C10_threshold_continuity (mp : MatPar) (tc : ℚ) (h : tc ≠ 0) :
    _homogeneous_state mp tc tc = elasticBranch mp tc ∧
    damagingBranch mp tc tc = elasticBranch mp tc := by
  constructor
  · rw [_homogeneous_state, if_pos le_rfl]
  · unfold damagingBranch elasticBranch
    simp only [HomState.mk.injEq]
    constructor
    · simp [div_self h]
    · refine List.map_congr_left ?_
      intro i _
      ring

/-- Witness for C10 at the driver's parameters and critical load `1`. -/
theorem C10_threshold_continuity_witness :
    _homogeneous_state (atkMatPar 2) 1 1 = elasticBranch (atkMatPar 2) 1 ∧
    damagingBranch (atkMatPar 2) 1 1 = elasticBranch (atkMatPar 2) 1 :=
  C10_threshold_continuity (atkMatPar 2) 1 (by norm_num)

/-! ## Lemmas about the load-stepping driver -/

theorem runLoads_load (env : DriverEnv) :
    ∀ (ts : List ℚ) (k : ℕ) (s : DriverState),
      (runLoads env k ts s).history.load = s.history.load ++ ts := by
  intro ts
  induction ts with
  | nil => intro k s; simp [runLoads]
  | cons t ts ih => intro k s; simp [runLoads, ih, loadStep]

theorem runLoads_elastic_energy (env : DriverEnv) :
    ∀ (ts : List ℚ) (k : ℕ) (s : DriverState),
      (runLoads env k ts s).history.elastic_energy =
        s.history.elastic_energy ++ ts.map (stepElastic env) := by
  intro ts
  induction ts with
  | nil => intro k s; simp [runLoads]
  | cons t ts ih => intro k s; simp [runLoads, ih, loadStep, stepElastic]

theorem runLoads_fracture_energy (env : DriverEnv) :
    ∀ (ts : List ℚ) (k : ℕ) (s : DriverState),
      (runLoads env k ts s).history.fracture_energy =
        s.history.fracture_energy ++ ts.map (stepFracture env) := by
  intro ts
  induction ts with
  | nil => intro k s; simp [runLoads]
  | cons t ts ih => intro k s; simp [runLoads, ih, loadStep, stepFracture]

theorem runLoads_total_energy (env : DriverEnv) :
    ∀ (ts : List ℚ) (k : ℕ) (s : DriverState),
      (runLoads env k ts s).history.total_energy =
        s.history.total_energy ++
          ts.map (fun t => stepElastic env t + stepFracture env t) := by
  intro ts
  induction ts with
  | nil => intro k s; simp [runLoads]
  | cons t ts ih =>
    intro k s
    simp [runLoads, ih, loadStep, stepElastic, stepFracture]

theorem runLoads_F (env : DriverEnv) :
    ∀ (ts : List ℚ) (k : ℕ) (s : DriverState),
      (runLoads env k ts s).history.F =
        s.history.F ++ ts.map (stepStress env) := by
  intro ts
  induction ts with
  | nil => intro k s; simp [runLoads]
  | cons t ts ih => intro k s; simp [runLoads, ih, loadStep, stepStress]

theorem runLoads_alpha_t (env : DriverEnv) :
    ∀ (ts : List ℚ) (k : ℕ) (s : DriverState),
      (runLoads env k ts s).history.alpha_t =
        s.history.alpha_t ++ ts.map (fun t => (stepState env t).alphah) := by
  intro ts
  induction ts with
  | nil => intro k s; simp [runLoads]
  | cons t ts ih => intro k s; simp [runLoads, ih, loadStep]

theorem runLoads_u_t (env : DriverEnv) :
    ∀ (ts : List ℚ) (k : ℕ) (s : DriverState),
      (runLoads env k ts s).history.u_t =
        s.history.u_t ++ ts.map (fun t => (stepState env t).uh) := by
  intro ts
  induction ts with
  | nil => intro k s; simp [runLoads]
  | cons t ts ih => intro k s; simp [runLoads, ih, loadStep]

theorem runLoads_alpha_lb (env : DriverEnv) :
    ∀ (ts : List ℚ) (k : ℕ) (s : DriverState),
      (runLoads env k ts s).alpha_lb = s.alpha_lb := by
  intro ts
  induction ts with
  | nil => intro k s; simp [runLoads]
  | cons t ts ih => intro k s; simp [runLoads, ih, loadStep]

theorem runLoads_alpha_ub (env : DriverEnv) :
    ∀ (ts : List ℚ) (k : ℕ) (s : DriverState),
      (runLoads env k ts s).alpha_ub = s.alpha_ub := by
  intro ts
  induction ts with
  | nil => intro k s; simp [runLoads]
  | cons t ts ih => intro k s; simp [runLoads, ih, loadStep]

theorem runLoads_cone_data_length (env : DriverEnv) :
    ∀ (ts : List ℚ) (k : ℕ) (s : DriverState),
      (runLoads env k ts s).history.cone_data.length =
        s.history.cone_data.length + ts.length := by
  intro ts
  induction ts with
  | nil => intro k s; simp [runLoads]
  | cons t ts ih => intro k s; simp [runLoads, ih, loadStep]; omega

theorem runLoads_eigs_length (env : DriverEnv) :
    ∀ (ts : List ℚ) (k : ℕ) (s : DriverState),
      (runLoads env k ts s).history.eigs.length =
        s.history.eigs.length + ts.length := by
  intro ts
  induction ts with
  | nil => intro k s; simp [runLoads]
  | cons t ts ih => intro k s; simp [runLoads, ih, loadStep]; omega

theorem runLoads_cone_stable_length (env : DriverEnv) :
    ∀ (ts : List ℚ) (k : ℕ) (s : DriverState),
      (runLoads env k ts s).history.cone_stable.length =
        s.history.cone_stable.length + ts.length := by
  intro ts
  induction ts with
  | nil => intro k s; simp [runLoads]
  | cons t ts ih => intro k s; simp [runLoads, ih, loadStep]; omega

theorem runLoads_non_bifurcation_length (env : DriverEnv) :
    ∀ (ts : List ℚ) (k : ℕ) (s : DriverState),
      (runLoads env k ts s).history.non_bifurcation.length =
        s.history.non_bifurcation.length + ts.length := by
  intro ts
  induction ts with
  | nil => intro k s; simp [runLoads]
  | cons t ts ih => intro k s; simp [runLoads, ih, loadStep]; omega

/-- The driver never reads the `_AlternateMinimisation` instance: the load
loop is invariant under replacing it. -/
theorem runLoads_am_irrelevant (env : DriverEnv) (a' : AMEnv) :
    ∀ (ts : List ℚ) (k : ℕ) (s : DriverState),
      runLoads { env with am := a' } k ts s = runLoads env k ts s := by
  intro ts
  induction ts with
  | nil => intro k s; rfl
  | cons t ts ih =>
    intro k s
    simp only [runLoads]
    have hstep : loadStep { env with am := a' } k t s = loadStep env k t s :=
      rfl
    rw [hstep]
    exact ih (k + 1) (loadStep env k t s)

/-! ## Claims C4, C6, C9: driver bookkeeping -/

/-- C4: for every load step, the value appended to
`history_data["total_energy"]` equals the appended elastic energy plus the
appended fracture energy for that same step — exactly, hence a fortiori
within `1e-10` relative tolerance. -/
theorem C4_energy_accounting (env : DriverEnv) :
    ∀ (i : ℕ) (v e f : ℚ),
      (discrete_atk env).history.total_energy[i]? = some v →
      (discrete_atk env).history.elastic_energy[i]? = some e →
      (discrete_atk env).history.fracture_energy[i]? = some f →
      v = e + f ∧ |v - (e + f)| ≤ 1 / 10 ^ 10 * |e + f| := by
  intro i v e f hv he hf
  have ht : (discrete_atk env).history.total_energy =
      (loads env).map (fun t => stepElastic env t + stepFracture env t) := by
    rw [discrete_atk, runLoads_total_energy]
    simp [initState]
  have h2 : (discrete_atk env).history.elastic_energy =
      (loads env).map (stepElastic env) := by
    rw [discrete_atk, runLoads_elastic_energy]
    simp [initState]
  have h3 : (discrete_atk env).history.fracture_energy =
      (loads env).map (stepFracture env) := by
    rw [discrete_atk, runLoads_fracture_energy]
    simp [initState]
  rw [ht, List.getElem?_map] at hv
  rw [h2, List.getElem?_map] at he
  rw [h3, List.getElem?_map] at hf
  obtain ⟨t, hget, hvt⟩ := Option.map_eq_some'.mp hv
  obtain ⟨t2, hget2, het⟩ := Option.map_eq_some'.mp he
  obtain ⟨t3, hget3, hft⟩ := Option.map_eq_some'.mp hf
  have h12 : t2 = t := by
    have := hget2.symm.trans hget
    exact Option.some_inj.mp this
  have h13 : t3 = t := by
    have := hget3.symm.trans hget
    exact Option.some_inj.mp this
  subst h12 h13
  have hveq : v = e + f := by rw [← hvt, ← het, ← hft]
  refine ⟨hveq, ?_⟩
  rw [hveq, sub_self, abs_zero]
  positivity

/-- Witness for C4 at the concrete driver environment (all assembled
energies zero). -/
theorem C4_energy_accounting_witness :
    (0 + 0 : ℚ) = 0 + 0 ∧
      |(0 + 0 : ℚ) - (0 + 0)| ≤ 1 / 10 ^ 10 * |(0 : ℚ) + 0| :=
  C4_energy_accounting envD 0 (0 + 0) 0 0 rfl rfl rfl

/-- C6: every per-step state of the driver is produced solely by the
analytic piecewise formula `_homogeneous_state` (with the exact critical
load `1`), and the `_AlternateMinimisation` instance is never invoked: the
whole run is invariant under replacing it. -/
theorem C6_homogeneous_bypass (env : DriverEnv) :
    (discrete_atk env).history.alpha_t =
      (loads env).map
        (fun t => (_homogeneous_state (atkMatPar env.N) 1 t).alphah) ∧
    (discrete_atk env).history.u_t =
      (loads env).map
        (fun t => (_homogeneous_state (atkMatPar env.N) 1 t).uh) ∧
    ∀ a' : AMEnv, discrete_atk { env with am := a' } = discrete_atk env := by
  refine ⟨?_, ?_, ?_⟩
  · rw [discrete_atk, runLoads_alpha_t]
    simp [initState, stepState]
  · rw [discrete_atk, runLoads_u_t]
    simp [initState, stepState]
  · intro a'
    rw [discrete_atk, discrete_atk]
    have h1 : loads { env with am := a' } = loads env := rfl
    have h2 : initState { env with am := a' } = initState env := rfl
    rw [h1, h2]
    exact runLoads_am_irrelevant env a' (loads env) 0 (initState env)

/-- C9: the damage lower bound is initialised to zero at every degree of
freedom and is left unchanged by every load step: no operation of the run
mutates `alpha_lb` after its initialisation. -/
theorem C9_alpha_lb_frame (env : DriverEnv) :
    (initState env).alpha_lb = List.replicate env.N 0 ∧
    (∀ (k : ℕ) (ts : List ℚ) (s : DriverState),
        (runLoads env k ts s).alpha_lb = s.alpha_lb) ∧
    (discrete_atk env).alpha_lb = List.replicate env.N 0 := by
  have hinit : (initState env).alpha_lb = List.replicate env.N 0 := by
    simp [initState, List.map_const']
  refine ⟨hinit, ?_, ?_⟩
  · intro k ts s
    exact runLoads_alpha_lb env ts k s
  · rw [discrete_atk, runLoads_alpha_lb]
    exact hinit

/-- Arithmetic of the samples of `np.linspace(m, 4, 30)`: each sample is at
most `4`, with equality only at the last index. -/
theorem linspace_sample_bound (m : ℚ) (hm : m < 4) (i : ℕ) (hi : i < 30) :
    m + (4 - m) * (i : ℚ) / 29 ≤ 4 ∧
    (m + (4 - m) * (i : ℚ) / 29 = 4 → i = 29) := by
  have hi' : (i : ℚ) ≤ 29 := by
    have h0 : i ≤ 29 := by omega
    exact_mod_cast h0
  have h29 : (0 : ℚ) < 29 := by norm_num
  have hpos : (0 : ℚ) < 4 - m := by linarith
  constructor
  · have h1 : (4 - m) * (i : ℚ) ≤ (4 - m) * 29 :=
      mul_le_mul_of_nonneg_left hi' (le_of_lt hpos)
    have h2 : (4 - m) * (i : ℚ) / 29 ≤ 4 - m := by
      rw [div_le_iff₀ h29]
      linarith
    linarith
  · intro ht
    have h3 : (4 - m) * (i : ℚ) / 29 = 4 - m := by linarith
    have h4 : (4 - m) * (i : ℚ) = (4 - m) * 29 := by
      rw [div_eq_iff (ne_of_gt h29)] at h3
      linarith
    have h5 : (i : ℚ) = 29 := mul_left_cancel₀ (ne_of_gt hpos) h4
    exact_mod_cast h5

/-! ## Claims C5 and C7: bound invariant and history shape -/

/-- C7: after the driver runs, `history_data["load"]` is exactly the (30
strictly ascending) load sequence in order, every one of the eleven history
lists has exactly 30 entries, and running any prefix of the load sequence
produces exactly the corresponding prefix of the load history (entries are
only appended, never reordered or removed). -/
theorem C7_history_append_only (env : DriverEnv)
    (h : env.loading_min < loading_max) :
    (discrete_atk env).history.load = loads env ∧
    (loads env).length = 30 ∧
    List.Pairwise (fun a b : ℚ => a < b) (loads env) ∧
    (discrete_atk env).history.load.length = 30 ∧
    (discrete_atk env).history.elastic_energy.length = 30 ∧
    (discrete_atk env).history.fracture_energy.length = 30 ∧
    (discrete_atk env).history.total_energy.length = 30 ∧
    (discrete_atk env).history.cone_data.length = 30 ∧
    (discrete_atk env).history.eigs.length = 30 ∧
    (discrete_atk env).history.cone_stable.length = 30 ∧
    (discrete_atk env).history.non_bifurcation.length = 30 ∧
    (discrete_atk env).history.F.length = 30 ∧
    (discrete_atk env).history.alpha_t.length = 30 ∧
    (discrete_atk env).history.u_t.length = 30 ∧
    (∀ k : ℕ,
      (runLoads env 0 ((loads env).take k) (initState env)).history.load =
        (loads env).take k) := by
  have hload : (discrete_atk env).history.load = loads env := by
    rw [discrete_atk, runLoads_load]
    simp [initState]
  have hlen : (loads env).length = 30 := by
    simp [loads, linspace, loading_steps]
  refine ⟨hload, hlen, ?_, ?_, ?_, ?_, ?_, ?_, ?_, ?_, ?_, ?_, ?_, ?_, ?_⟩
  · rw [loads, linspace]
    rw [List.pairwise_map]
    refine List.Pairwise.imp ?_ (List.pairwise_lt_range 30)
    intro a b hab
    have hc : ((loading_steps : ℚ) - 1) = 29 := by norm_num [loading_steps]
    rw [hc]
    have hpos : (0 : ℚ) < loading_max - env.loading_min := by linarith
    have hab' : (a : ℚ) < b := by exact_mod_cast hab
    have h1 : (loading_max - env.loading_min) * (a : ℚ) <
        (loading_max - env.loading_min) * b :=
      mul_lt_mul_of_pos_left hab' hpos
    have h29 : (0 : ℚ) < 29 := by norm_num
    have h2 := (div_lt_div_iff_of_pos_right h29).mpr h1
    linarith
  · rw [hload]
    exact hlen
  · rw [discrete_atk, runLoads_elastic_energy]
    simp [initState, hlen]
  · rw [discrete_atk, runLoads_fracture_energy]
    simp [initState, hlen]
  · rw [discrete_atk, runLoads_total_energy]
    simp [initState, hlen]
  · rw [discrete_atk, runLoads_cone_data_length]
    simp [initState, hlen]
  · rw [discrete_atk, runLoads_eigs_length]
    simp [initState, hlen]
  · rw [discrete_atk, runLoads_cone_stable_length]
    simp [initState, hlen]
  · rw [discrete_atk, runLoads_non_bifurcation_length]
    simp [initState, hlen]
  · rw [discrete_atk, runLoads_F]
    simp [initState, hlen]
  · rw [discrete_atk, runLoads_alpha_t]
    simp [initState, hlen]
  · rw [discrete_atk, runLoads_u_t]
    simp [initState, hlen]
  · intro k
    rw [runLoads_load]
    simp [initState]

/-- Witness for C7 at the concrete driver environment. -/
theorem C7_history_append_only_witness :
    (discrete_atk envD).history.load = loads envD :=
  (C7_history_append_only envD (by norm_num [envD, loading_max])).1

/-- C5: throughout the run the damage bounds are the constant fields
`alpha_lb = 0`, `alpha_ub = 1`, and for every load step the prescribed
homogeneous damage lies pointwise in `[0, 1]`, reaching `1` only at the
final load step (index 29, load `t = k = 4`). -/
theorem C5_bound_invariant (env : DriverEnv) (h : env.loading_min < 4) :
    (discrete_atk env).alpha_lb = List.replicate env.N 0 ∧
    (discrete_atk env).alpha_ub = List.replicate env.N 1 ∧
    ∀ (i : ℕ) (xs : List ℚ),
      (discrete_atk env).history.alpha_t[i]? = some xs →
      ∀ x ∈ xs, 0 ≤ x ∧ x ≤ 1 ∧ (x = 1 → i = 29) := by
  refine ⟨?_, ?_, ?_⟩
  · rw [discrete_atk, runLoads_alpha_lb]
    simp [initState, List.map_const']
  · rw [discrete_atk, runLoads_alpha_ub]
    simp [initState, List.map_const']
  · intro i xs hxs x hx
    have hat : (discrete_atk env).history.alpha_t =
        (loads env).map (fun t => (stepState env t).alphah) := by
      rw [discrete_atk, runLoads_alpha_t]
      simp [initState]
    rw [hat, List.getElem?_map] at hxs
    obtain ⟨t, hget, hxs'⟩ := Option.map_eq_some'.mp hxs
    have hlen : (loads env).length = 30 := by
      rw [loads, linspace, List.length_map, List.length_range, loading_steps]
    have hi30 : i < 30 := by
      by_contra hcon
      push_neg at hcon
      rw [List.getElem?_eq_none (by omega : (loads env).length ≤ i)] at hget
      exact Option.noConfusion hget
    have hc : ((loading_steps : ℚ) - 1) = 29 := by
      norm_num [loading_steps]
    have hget' :
        t = env.loading_min + (4 - env.loading_min) * (i : ℚ) / 29 := by
      rw [loads, linspace, List.getElem?_map, List.getElem?_range
        (by rw [loading_steps]; exact hi30)] at hget
      have ht := Option.some_inj.mp hget
      rw [← ht, hc, loading_max]
    obtain ⟨ht4, ht4eq⟩ := linspace_sample_bound env.loading_min h i hi30
    rw [← hget'] at ht4 ht4eq
    rw [← hxs'] at hx
    rw [stepState, _homogeneous_state] at hx
    by_cases hle : t ≤ 1
    · rw [if_pos hle] at hx
      rw [elasticBranch] at hx
      obtain ⟨j, _, hj⟩ := List.mem_map.mp hx
      rw [← hj]
      norm_num
    · rw [if_neg hle] at hx
      push_neg at hle
      rw [damagingBranch] at hx
      obtain ⟨j, _, hj⟩ := List.mem_map.mp hx
      have hval : (t / (1 : ℚ) - 1) / ((atkMatPar env.N).k - 1) =
          (t - 1) / 3 := by
        norm_num [atkMatPar]
      rw [← hj, hval]
      have h3 : (0 : ℚ) < 3 := by norm_num
      refine ⟨?_, ?_, ?_⟩
      · apply div_nonneg _ (le_of_lt h3)
        linarith
      · rw [div_le_one h3]
        linarith
      · intro hx1
        rw [div_eq_one_iff_eq (ne_of_gt h3)] at hx1
        exact ht4eq (by linarith)

/-- Witness for C5 at the concrete driver environment, first load step. -/
theorem C5_bound_invariant_witness :
    0 ≤ (0 : ℚ) ∧ (0 : ℚ) ≤ 1 ∧ ((0 : ℚ) = 1 → (0 : ℕ) = 29) :=
  (C5_bound_invariant envD (by norm_num [envD])).2.2 0
    ((stepState envD (envD.loading_min +
      (loading_max - envD.loading_min) * ((0 : ℕ) : ℚ) /
        (((30 : ℕ) : ℚ) - 1))).alphah)
    rfl 0
    (by norm_num [stepState, _homogeneous_state, elasticBranch, atkMatPar,
      loading_max, envD])
